import Mathlib

/-!
Verification of the hybrid retrieval / context-assembly / response-cache
subsystem of the car-ticket support chatbot.

The definitions below are a shallow embedding of the Python sources:
* `src/src/phase4/rag_pipeline_langchain.py` (query expansion, lexical
  scoring, hybrid fusion `_hybrid_retrieve`, `_filter_by_type`,
  `build_context`),
* `src/src/phase4/vector_db.py` (`search_tickets` semantic fallback and the
  BM25 top-index cut),
* `src/src/phase4/rag_pipeline.py` (response cache, `generate_response`,
  `query`),
* `src/config/settings.py` (hybrid weight defaults).

Modelling conventions: Python floats are modelled as exact rationals;
Python sets are modelled as duplicate-free lists (only membership and
cardinality of sets are ever used by the code); Python dicts that are used
as ordered key-value stores are modelled as association lists with
insertion-order-preserving update, matching CPython dict semantics; text
handled character-by-character (`build_context`) is modelled as `List Char`;
an MD5 cache key is modelled by its preimage string (MD5 is injective for
the purposes of the cache contract); raising an exception in a provider
call is modelled as `Except.error`.
-/

namespace CarBot

/-! ### Generic helpers: Python-style string and set operations -/

/-- Python `str.lower()` (character-wise lowering). -/
def pyLower (s : String) : String := ⟨s.data.map Char.toLower⟩

/-- Python `str.strip()`: drop whitespace from both ends. -/
def pyStrip (s : String) : String :=
  ⟨((s.data.dropWhile Char.isWhitespace).reverse.dropWhile Char.isWhitespace).reverse⟩

/-- Accumulator-style splitting of a character list on whitespace runs,
empty chunks dropped (Python `str.split()` with no argument). -/
def splitWSAux : List Char → List Char → List (List Char)
  | [], acc => if acc.isEmpty then [] else [acc.reverse]
  | c :: cs, acc =>
    if c.isWhitespace then
      if acc.isEmpty then splitWSAux cs [] else acc.reverse :: splitWSAux cs []
    else splitWSAux cs (c :: acc)

/-- Python `str.split()`: whitespace-separated words. -/
def pyWords (s : String) : List String := (splitWSAux s.data []).map (fun l => ⟨l⟩)

/-- `seqStarts p l` holds when `p` is an initial run of `l`. -/
def seqStarts : List Char → List Char → Bool
  | [], _ => true
  | _ :: _, [] => false
  | a :: as, b :: bs => a == b && seqStarts as bs

/-- Python `str.startswith`. -/
def strStarts (pre s : String) : Bool := seqStarts pre.data s.data

/-- `containsSeq n l`: `n` occurs as a contiguous run inside `l`. -/
def containsSeq (n : List Char) : List Char → Bool
  | [] => n.isEmpty
  | c :: cs => seqStarts n (c :: cs) || containsSeq n cs

/-- Python `term in text` (substring containment). -/
def strContains (hay pat : String) : Bool := containsSeq pat.data hay.data

/-- Python `min(a, b)` on floats (modelled as rationals). -/
def minQ (a b : ℚ) : ℚ := if a ≤ b then a else b

/-- Python `max(a, b)` on floats (modelled as rationals). -/
def maxQ (a b : ℚ) : ℚ := if b ≤ a then a else b

/-- Lookup in an association list (Python `d[k]` / `k in d`). -/
def alookup (k : String) : List (String × β) → Option β
  | [] => none
  | (k', v) :: rest => if k' = k then some v else alookup k rest

/-- Python `d[k] = v` on a dict: replace in place if the key exists
(CPython keeps the original position), append otherwise. -/
def aupsert (k : String) (v : β) : List (String × β) → List (String × β)
  | [] => [(k, v)]
  | (k', v') :: rest => if k' = k then (k, v) :: rest else (k', v') :: aupsert k v rest

/-- Python `del d[k]`. -/
def aerase (k : String) (m : List (String × β)) : List (String × β) :=
  m.filter (fun p => decide (p.1 ≠ k))

/-! ### Stable descending sort

Python `list.sort(key=..., reverse=True)` is a stable sort; any stable
sort with the same comparator produces the same list, so we use a stable
insertion sort: each element is placed after every earlier element whose
key is greater than or equal to its own. -/

/-- Insert into a descending-sorted list, after equal keys (stable). -/
def insertDesc (x : ℚ × α) : List (ℚ × α) → List (ℚ × α)
  | [] => [x]
  | y :: ys => if y.1 < x.1 then x :: y :: ys else y :: insertDesc x ys

/-- Stable sort, descending on the first (score) component. -/
def sortDescQ (l : List (ℚ × α)) : List (ℚ × α) :=
  l.foldl (fun acc x => insertDesc x acc) []

/-! ### `config/settings.py`: hybrid weight defaults -/

/-- `HYBRID_DENSE_WEIGHT = float(os.getenv("HYBRID_DENSE_WEIGHT", 0.65))`,
default value. -/
def HYBRID_DENSE_WEIGHT : ℚ := 0.65

/-- `HYBRID_SPARSE_WEIGHT = float(os.getenv("HYBRID_SPARSE_WEIGHT", 0.35))`,
default value. -/
def HYBRID_SPARSE_WEIGHT : ℚ := 0.35

/-- The lexical boost weight hard-coded as `0.2` in
`LangchainRAG._hybrid_retrieve` (`hybrid_score += 0.2 * lexical_score`). -/
def lexicalWeight : ℚ := 0.2

/-! ### `rag_pipeline_langchain.py`: documents and hybrid fusion -/

/-- A LangChain `Document` restricted to the fields `_hybrid_retrieve`,
`_filter_by_type` and their helpers actually read.  `metaBm25` is
`metadata.get("bm25_score", 0.0)` with the default already applied. -/
structure LCDoc where
  pageContent : String
  metaId : Option String
  metaSourceId : Option String
  metaType : Option String
  metaDistance : Option ℚ
  metaSimilarity : Option ℚ
  metaBm25 : ℚ
deriving DecidableEq

/-- Python truthy-or on strings: `a or b` where a missing or empty string
falls through to `b`. -/
def strOrD (a : Option String) (b : String) : String :=
  match a with
  | some s => if s = "" then b else s
  | none => b

/-- `doc.metadata.get("id") or doc.metadata.get("source_id") or f"dense_{i}"`. -/
def denseDocId (i : Nat) (d : LCDoc) : String :=
  strOrD d.metaId (strOrD d.metaSourceId ("dense_" ++ Nat.repr i))

/-- `doc.metadata.get("source_id") or doc.metadata.get("id") or f"sparse_{i}"`. -/
def sparseDocId (i : Nat) (d : LCDoc) : String :=
  strOrD d.metaSourceId (strOrD d.metaId ("sparse_" ++ Nat.repr i))

/-- Dense similarity extraction in `_hybrid_retrieve`: `1 - distance` when a
distance is present, else the stored similarity score, else the `0.8`
default. -/
def denseSimilarity (d : LCDoc) : ℚ :=
  match d.metaDistance with
  | some dist => 1 - dist
  | none =>
    match d.metaSimilarity with
    | some s => s
    | none => 0.8

/-- The synonym table inlined in `LangchainRAG._expand_query_terms`. -/
def expansionsLC : List (String × List String) :=
  [("ppf", ["pellicola", "film", "protection film", "paint protection", "pellicola protettiva"]),
   ("pellicola", ["ppf", "film", "protection film", "paint protection"]),
   ("ingiallita", ["yellowed", "yellowing", "gialla", "ingiallimento"]),
   ("carteggiatura", ["sanding", "sand", "levigare", "levigatura"]),
   ("bug", ["insetto", "insetti", "moscerini", "bug remover"]),
   ("insetti", ["bug", "bugs", "moscerini", "insect"]),
   ("vetro", ["vetri", "glass", "windshield", "parabrezza", "cristallo"]),
   ("parabrezza", ["windshield", "vetro", "glass", "windscreen"]),
   ("interni", ["interno", "interior", "abitacolo", "cruscotto"]),
   ("lucidatura", ["polish", "polishing", "lucidare", "correzione"])]

/-- The important-term set in `_calculate_lexical_score`. -/
def importantTermsLC : List String :=
  ["ppf", "pellicola", "ingiallita", "carteggiatura", "bug", "vetro", "parabrezza"]

/-- `LangchainRAG._expand_query_terms`: whitespace tokens of the lower-cased
query, plus the synonym list of every table term contained (as a substring)
in the query.  The Python `set` is modelled as a duplicate-free list. -/
def expandQueryTerms (query : String) : List String :=
  let ql := pyLower query
  let base := (pyWords ql).dedup
  expansionsLC.foldl
    (fun acc p => if strContains ql p.1 then (acc ++ p.2).dedup else acc) base

/-- `LangchainRAG._calculate_lexical_score`:
`min(matches * 0.1 + important_matches * 0.3, 1.0)` where matches are
counted on the set of whitespace words of the lower-cased document. -/
def calculateLexicalScore (queryTerms : List String) (docText : String) : ℚ :=
  let docWords := (pyWords (pyLower docText)).dedup
  let nMatches := (queryTerms.filter (fun t => decide (t ∈ docWords))).length
  let nImportant :=
    ((queryTerms.filter (fun t => decide (t ∈ importantTermsLC))).filter
      (fun t => decide (t ∈ docWords))).length
  minQ ((nMatches : ℚ) * 0.1 + (nImportant : ℚ) * 0.3) 1

/-- `max_sparse` in `_hybrid_retrieve`: the maximum of the raw BM25 scores
if that maximum is positive, else `1.0` (also when the sparse list is
empty, via the `or [0.0]` default). -/
def maxSparseOf (sparse : List LCDoc) : ℚ :=
  match sparse.map (fun d => d.metaBm25) with
  | [] => 1
  | s :: rest =>
    let m := rest.foldl maxQ s
    if 0 < m then m else 1

/-- One candidate-map entry of `_hybrid_retrieve`. -/
structure Cand where
  doc : LCDoc
  dense : ℚ
  sparse : ℚ
  lex : ℚ
deriving DecidableEq

/-- The candidate map keyed by document id (a CPython dict: insertion
ordered, updates in place). -/
abbrev CandMap := List (String × Cand)

/-- The dense loop of `_hybrid_retrieve`: each dense document seeds (or
overwrites) the entry at its id with its similarity, sparse score `0.0`
and its lexical score. -/
def densePhase (qt : List String) (dense : List LCDoc) : CandMap :=
  dense.enum.foldl
    (fun m p =>
      aupsert (denseDocId p.1 p.2)
        ⟨p.2, denseSimilarity p.2, 0, calculateLexicalScore qt p.2.pageContent⟩ m)
    []

/-- The sparse loop body of `_hybrid_retrieve`: overwrite the sparse score
(and raise the lexical score) of an existing entry, or append a fresh entry
with dense score `0.0`. -/
def sparseStep (qt : List String) (ms : ℚ) (m : CandMap) (p : Nat × LCDoc) : CandMap :=
  let did := sparseDocId p.1 p.2
  let ns := p.2.metaBm25 / ms
  let lx := calculateLexicalScore qt p.2.pageContent
  match alookup did m with
  | some e => aupsert did ⟨e.doc, e.dense, ns, maxQ e.lex lx⟩ m
  | none => m ++ [(did, ⟨p.2, 0, ns, lx⟩)]

/-- The full candidate map built by `_hybrid_retrieve` for a query and a
pair of dense/sparse candidate lists. -/
def buildCandidates (query : String) (dense sparse : List LCDoc) : CandMap :=
  let qt := expandQueryTerms query
  sparse.enum.foldl (sparseStep qt (maxSparseOf sparse)) (densePhase qt dense)

/-- `hybrid_score = dense_weight*dense + sparse_weight*sparse + 0.2*lexical`. -/
def hybridScore (dw sw : ℚ) (e : Cand) : ℚ :=
  dw * e.dense + sw * e.sparse + lexicalWeight * e.lex

/-- The `scored_docs` list of `_hybrid_retrieve` (the hybrid score is also
stamped into the document metadata in Python; we keep it as the pair's
first component). -/
def scoredDocs (dw sw : ℚ) (m : CandMap) : List (ℚ × LCDoc) :=
  m.map (fun p => (hybridScore dw sw p.2, p.2.doc))

/-- `LangchainRAG._hybrid_retrieve`: build the candidate map, score it,
sort descending by hybrid score (`list.sort(key=..., reverse=True)`, a
stable sort) and truncate to `top_k`. -/
def hybridRetrieve (dw sw : ℚ) (query : String) (dense sparse : List LCDoc)
    (topK : Nat) : List (ℚ × LCDoc) :=
  (sortDescQ (scoredDocs dw sw (buildCandidates query dense sparse))).take topK

/-- Ids assigned to the dense candidates (in order). -/
def denseIds (dense : List LCDoc) : List String :=
  dense.enum.map (fun p => denseDocId p.1 p.2)

/-- Ids assigned to the sparse candidates (in order). -/
def sparseIds (sparse : List LCDoc) : List String :=
  sparse.enum.map (fun p => sparseDocId p.1 p.2)

/-- `LangchainRAG._filter_by_type`: keep documents whose metadata type
equals the requested type. -/
def filterByType (documents : List LCDoc) (docType : String) : List LCDoc :=
  documents.filter (fun d => decide (d.metaType = some docType))

/-! ### `vector_db.py`: semantic search with type-filter fallback (C7)
and the BM25 top-index cut (C8) -/

/-- A Chroma-style query result, with the singleton outer nesting of
`results["ids"][0]` flattened away.  Metadata is an open string map. -/
structure ChromaResult where
  ids : List String
  documents : List String
  metadatas : List (List (String × String))
  distances : List ℚ

/-- The document-store oracle used by `search_tickets`.
`queryFiltered = none` models the `where={"type": "ticket"}` query raising
(filter capability unavailable); otherwise it returns the filtered result
for a requested candidate count. -/
structure TicketStore where
  queryFiltered : Option (Nat → ChromaResult)
  queryUnfiltered : Nat → ChromaResult

/-- `candidate_k = max(k * 10, 200)` in `search_tickets`. -/
def candidateK (k : Nat) : Nat := max (k * 10) 200

/-- The semantic (dense) part of `VectorDBManager.search_tickets` on the
unified collection: try the native type filter; on failure query an
unfiltered batch of twice the size and filter client-side by
`meta and meta.get("type") == "ticket"`, keeping at most `candidate_k`
indices and re-indexing every parallel list. -/
def semanticTicketResults (store : TicketStore) (k : Nat) : ChromaResult :=
  let ck := candidateK k
  match store.queryFiltered with
  | some qf => qf ck
  | none =>
    let r := store.queryUnfiltered (ck * 2)
    let idxs :=
      ((r.metadatas.enum.filter
          (fun p => !p.2.isEmpty && decide (alookup "type" p.2 = some "ticket"))).map
        (fun p => p.1)).take ck
    { ids := idxs.filterMap (fun i => r.ids.get? i),
      documents := idxs.filterMap (fun i => r.documents.get? i),
      metadatas := idxs.filterMap (fun i => r.metadatas.get? i),
      distances := idxs.filterMap (fun i => r.distances.get? i) }

/-- Python `sorted(range(len(scores)), key=lambda i: scores[i],
reverse=True)` — a stable descending sort of the index range, so equal
scores keep ascending index order. -/
def sortIndicesDesc (scores : List ℚ) : List Nat :=
  (sortDescQ ((List.range scores.length).map (fun i => (scores.getD i 0, i)))).map
    (fun p => p.2)

/-- The BM25 index cut in `search_tickets`:
`top_bm25_indices = sorted(...)[:min(candidate_k * 3, 500)]`. -/
def bm25TopIndices (k : Nat) (scores : List ℚ) : List Nat :=
  (sortIndicesDesc scores).take (min (candidateK k * 3) 500)

/-- Modelled from the spec words (for refinement comparison with
`bm25TopIndices`): keep the top `min(k * 3, 500)` scoring documents, where
`k` is the result count requested by the caller. -/
def specBm25TopIndices (k : Nat) (scores : List ℚ) : List Nat :=
  (sortIndicesDesc scores).take (min (k * 3) 500)

/-- The id-prefix restriction after the cut: for each kept index in range,
keep the id only when it starts with `"ticket_"` (the Python code collects
these into a set; we keep iteration order). -/
def bm25TicketIds (k : Nat) (scores : List ℚ) (ids : List String) : List String :=
  (bm25TopIndices k scores).filterMap
    (fun i =>
      match ids.get? i with
      | some did => if strStarts "ticket_" did then some did else none
      | none => none)

/-! ### `rag_pipeline_langchain.py`: `build_context` (C3, C4)

Text is modelled as `List Char` so that Python's character counting and
slicing translate to `List.length` and `List.take`. -/

/-- Character-list text. -/
abbrev Text := List Char

/-- `"=== HISTORICAL TICKETS ===\n"` (appended to `parts` but not counted
in `total_chars`). -/
def ticketsHeaderLine : Text := "=== HISTORICAL TICKETS ===\n".data

/-- `"=== PRODUCT GUIDES ===\n"` (appended to `parts` but not counted in
`total_chars`). -/
def guidesHeaderLine : Text := "=== PRODUCT GUIDES ===\n".data

/-- The `"..."` truncation marker. -/
def ellipsisT : Text := "...".data

/-- The `"\n\n"` item terminator. -/
def nl2 : Text := "\n\n".data

/-- Ticket metadata fields read by `build_context`. -/
structure TicketMeta where
  origTicketId : Option String
  ticketId : Option String
  subject : Option String
deriving DecidableEq

/-- The empty metadata dict used when `i >= len(metas)`. -/
def emptyTicketMeta : TicketMeta := ⟨none, none, none⟩

/-- Guide metadata fields read by `build_context`. -/
structure GuideMeta where
  guideTitle : Option String
  guideNumber : Option String
  sectionHeading : Option String
deriving DecidableEq

/-- The empty guide metadata dict. -/
def emptyGuideMeta : GuideMeta := ⟨none, none, none⟩

/-- The ticket item header:
`f"[TICKET {i+1}] ID: {ticket_id}"`, plus `f"\nSubject: {subject}"` when
the subject is non-empty, plus `"\n"`; the id is
`meta.get("orig_ticket_id") or meta.get("ticket_id", "N/A")`. -/
def ticketHeader (i : Nat) (m : TicketMeta) : Text :=
  let tid := strOrD m.origTicketId (m.ticketId.getD "N/A")
  let subject := m.subject.getD ""
  ("[TICKET " ++ Nat.repr (i + 1) ++ "] ID: " ++ tid).data ++
    (if subject = "" then [] else ("\nSubject: " ++ subject).data) ++ "\n".data

/-- The guide item header:
`f"[GUIDE {i+1}] {guide_title}"`, plus `f" ({guide_number})"` and
`f" - {section}"` when non-empty, plus `"\n"`. -/
def guideHeader (i : Nat) (m : GuideMeta) : Text :=
  let t := m.guideTitle.getD ""
  let n := m.guideNumber.getD ""
  let s := m.sectionHeading.getD ""
  ("[GUIDE " ++ Nat.repr (i + 1) ++ "] " ++ t).data ++
    (if n = "" then [] else (" (" ++ n ++ ")").data) ++
    (if s = "" then [] else (" - " ++ s).data) ++ "\n".data

/-- Header function for the ticket loop (`metas[i] if i < len(metas) else {}`). -/
def ticketHdr (metas : List TicketMeta) (i : Nat) : Text :=
  ticketHeader i (metas.getD i emptyTicketMeta)

/-- Header function for the guide loop. -/
def guideHdr (metas : List GuideMeta) (i : Nat) : Text :=
  guideHeader i (metas.getD i emptyGuideMeta)

/-- Per-item truncation:
`(doc[:max_chars] + "...") if len(doc) > max_chars else doc`. -/
def pyTrunc (maxItem : Nat) (doc : Text) : Text :=
  if maxItem < doc.length then doc.take maxItem ++ ellipsisT else doc

/-- One section loop of `build_context` over `docs[:max_items]` (the
truncation to `max_items` is done by the caller).  State is
`(parts, total_chars)`.  Faithful control flow: break when the budget is
already spent; otherwise build the item; if it overflows the global budget
compute `remaining = max_total - total - len(header) - 10` and either
truncate the item to `doc[:remaining] + "..."` and continue the loop, or
break. -/
def budgetLoop (hdr : Nat → Text) (maxItem maxTotal : Nat) :
    Nat → List Text → List Text × Nat → List Text × Nat
  | _, [], acc => acc
  | i, doc :: rest, (parts, total) =>
    if maxTotal ≤ total then (parts, total)
    else
      let header := hdr i
      let text := header ++ pyTrunc maxItem doc ++ nl2
      if maxTotal < total + text.length then
        let remaining : ℤ := (maxTotal : ℤ) - (total : ℤ) - (header.length : ℤ) - 10
        if 100 < remaining then
          let text2 := header ++ doc.take remaining.toNat ++ ellipsisT ++ nl2
          budgetLoop hdr maxItem maxTotal (i + 1) rest
            (parts ++ [text2], total + text2.length)
        else (parts, total)
      else budgetLoop hdr maxItem maxTotal (i + 1) rest (parts ++ [text], total + text.length)

/-- `"\n".join(parts)`. -/
def joinNl : List Text → Text
  | [] => []
  | [p] => p
  | p :: ps => p ++ '\n' :: joinNl ps

/-- The `(parts, total_chars)` state after both sections of
`build_context`.  `none` section data models a falsy `tickets_data` /
`guides_data` argument. -/
def buildContextState (ticketsData : Option (List Text × List TicketMeta))
    (guidesData : Option (List Text × List GuideMeta))
    (maxTicketChars maxGuideChars maxTickets maxGuides maxTotal : Nat) :
    List Text × Nat :=
  let s1 :=
    match ticketsData with
    | none => ([], 0)
    | some td =>
      budgetLoop (ticketHdr td.2) maxTicketChars maxTotal 0 (td.1.take maxTickets)
        ([ticketsHeaderLine], 0)
  match guidesData with
  | none => s1
  | some gd =>
    if s1.2 < maxTotal then
      budgetLoop (guideHdr gd.2) maxGuideChars maxTotal 0 (gd.1.take maxGuides)
        (s1.1 ++ [guidesHeaderLine], s1.2)
    else s1

/-- `LangchainRAG.build_context`: the assembled context string. -/
def buildContext (ticketsData : Option (List Text × List TicketMeta))
    (guidesData : Option (List Text × List GuideMeta))
    (maxTicketChars maxGuideChars maxTickets maxGuides maxTotal : Nat) : Text :=
  joinNl (buildContextState ticketsData guidesData maxTicketChars maxGuideChars
    maxTickets maxGuides maxTotal).1

/-- A `build_context` item derived from a given document: a header for the
given index followed by a prefix of the document, with or without the
ellipsis marker, terminated by a blank line. -/
def itemFromDoc (hdr : Nat → Text) (idx : Nat) (doc part : Text) : Prop :=
  ∃ body, body <+: doc ∧
    (part = hdr idx ++ body ++ nl2 ∨ part = hdr idx ++ body ++ ellipsisT ++ nl2)

/-! ### `rag_pipeline.py`: response cache, generation, `query` -/

/-- One generated draft: its text, sampling temperature and 1-based number. -/
structure Draft where
  text : String
  temperature : ℚ
  draftNumber : Nat
deriving DecidableEq

/-- The result dict of `RAGPipeline.query`, restricted to the fields the
cache claims depend on (`context`/`model` carry no cache-relevant
structure).  `responses` is empty in the single-draft shape. -/
structure QueryResult where
  query : String
  response : String
  responses : List Draft
  numDrafts : Nat
deriving DecidableEq

/-- A cache slot: the stored response plus the put timestamp. -/
structure CacheSlot where
  response : QueryResult
  timestamp : Int
deriving DecidableEq

/-- The in-memory response cache `self._cache` (a CPython dict). -/
abbrev RCache := List (String × CacheSlot)

/-- `self._cache_ttl = timedelta(hours=24)`, in seconds. -/
def cacheTTL : Int := 24 * 60 * 60

/-- `RAGPipeline._get_cached_response`: a hit when the key exists and
`now - timestamp < ttl`; on an expired entry, delete it and miss; missing
key misses.  Returns the (possibly evicted) cache alongside. -/
def getCachedResponse (now : Int) (cache : RCache) (key : String) :
    Option QueryResult × RCache :=
  match alookup key cache with
  | some slot =>
    if now - slot.timestamp < cacheTTL then (some slot.response, cache)
    else (none, aerase key cache)
  | none => (none, cache)

/-- `RAGPipeline._cache_response`: unconditional overwrite stamped with the
current time. -/
def cacheResponse (key : String) (r : QueryResult) (now : Int) (cache : RCache) :
    RCache :=
  aupsert key ⟨r, now⟩ cache

/-- Arguments of `RAGPipeline.query`. -/
structure QueryArgs where
  userQuery : String
  nTickets : Nat
  nGuides : Nat
  stream : Bool
  useCache : Bool
  numDrafts : Nat
  language : String
deriving DecidableEq

/-- `RAGPipeline._get_cache_key`: MD5 of
`f"{query.lower().strip()}_{n_tickets}_{n_guides}_{language}"`; modelled by
the (injective) preimage string. -/
def cacheKeyOf (a : QueryArgs) : String :=
  pyStrip (pyLower a.userQuery) ++ "_" ++ Nat.repr a.nTickets ++ "_" ++
    Nat.repr a.nGuides ++ "_" ++ a.language

/-- `RAGPipeline.generate_response`: delegate to the provider and catch
every exception, returning `f"Error: Unable to generate response. {e}"`
instead of propagating.  The provider call (Ollama or Groq, either stream
mode) is abstracted as an `Except` outcome. -/
def generateResponse (provider : Except String String) : String :=
  match provider with
  | .ok s => s
  | .error e => "Error: Unable to generate response. " ++ e

/-- `temperatures = [0.3, 0.5, 0.7, 0.8, 0.9]`. -/
def tempSchedule : List ℚ := [0.3, 0.5, 0.7, 0.8, 0.9]

/-- The sequential multi-draft loop of `query`: draft `i+1` uses
`temperatures[min(i, len(temperatures) - 1)]`.  Because
`generate_response` is total (it catches provider exceptions itself), the
per-draft `except` branch of the Python loop is dead code and has no
counterpart here. -/
def mkDrafts (gen : ℚ → Except String String) (numDrafts : Nat) : List Draft :=
  (List.range numDrafts).map
    (fun i =>
      let t := tempSchedule.getD (min i (tempSchedule.length - 1)) 0
      ⟨generateResponse (gen t), t, i + 1⟩)

/-- The result built by `query` after retrieval: the single-draft shape
(temperature `0.7`) or the multi-draft shape whose `response` field is the
text of the first draft. -/
def mkResult (gen : ℚ → Except String String) (a : QueryArgs) : QueryResult :=
  if a.numDrafts = 1 then
    ⟨a.userQuery, generateResponse (gen 0.7), [], 1⟩
  else
    let drafts := mkDrafts gen a.numDrafts
    ⟨a.userQuery, (drafts.headD ⟨"", 0, 0⟩).text, drafts, a.numDrafts⟩

/-- `RAGPipeline.query`, cache-relevant control flow: read the cache when
`use_cache and not stream` (returning a hit immediately), otherwise
generate, then write the result back when
`use_cache and not stream and num_drafts == 1`. -/
def queryFn (gen : ℚ → Except String String) (cache : RCache) (now : Int)
    (a : QueryArgs) : QueryResult × RCache :=
  let key := cacheKeyOf a
  let rd := if a.useCache && !a.stream then getCachedResponse now cache key
            else (none, cache)
  match rd.1 with
  | some r => (r, rd.2)
  | none =>
    let result := mkResult gen a
    if a.useCache && !a.stream && a.numDrafts = 1 then
      (result, cacheResponse key result now rd.2)
    else (result, rd.2)

/-! ### Derived definitions used by the claims -/

/-- Total character count of a list of parts. -/
def sumLen (ps : List Text) : Nat := (ps.map List.length).sum

/-- Lexicographic order on character lists (ascending), used to state the
claimed id-ascending tie-break. -/
def lexLeChar : List Char → List Char → Bool
  | [], _ => true
  | _ :: _, [] => false
  | a :: as, b :: bs => if a = b then lexLeChar as bs else decide (a < b)

/-- The document id of a fused candidate, as read from its metadata. -/
def docIdOf (d : LCDoc) : String := strOrD d.metaId (strOrD d.metaSourceId "")

/-- Modelled from the spec words (for refinement comparison with the fused
output ordering): descending by hybrid score with ties broken by document
id ascending. -/
def specTieOrder (l : List (ℚ × LCDoc)) : Prop :=
  l.Pairwise (fun a b => b.1 < a.1 ∨
    (a.1 = b.1 ∧ lexLeChar (docIdOf a.2).data (docIdOf b.2).data = true))

/-! ### Association list and stable sort lemmas -/

theorem alookup_aupsert (k id : String) (v : β) (m : List (String × β)) :
    alookup id (aupsert k v m) = if k = id then some v else alookup id m := by
  induction m with
  | nil => simp [alookup, aupsert]
  | cons hd tl ih =>
    obtain ⟨k', v'⟩ := hd
    by_cases h1 : k' = k
    · subst h1
      simp [aupsert, alookup]
      by_cases h2 : k' = id <;> simp [h2]
    · simp [aupsert, h1, alookup]
      by_cases h2 : k' = id
      · subst h2
        have : ¬ k = k' := fun h => h1 h.symm
        simp [this, alookup]
      · simp [h2, ih]

theorem alookup_mem {k : String} {v : β} {m : List (String × β)}
    (h : alookup k m = some v) : (k, v) ∈ m := by
  induction m with
  | nil => simp [alookup] at h
  | cons hd tl ih =>
    obtain ⟨k', v'⟩ := hd
    by_cases h1 : k' = k
    · subst h1
      simp [alookup] at h
      simp [h]
    · simp [alookup, h1] at h
      exact List.mem_cons_of_mem _ (ih h)

theorem mem_aupsert {x : String × β} {k : String} {v : β} {m : List (String × β)}
    (h : x ∈ aupsert k v m) : x = (k, v) ∨ x ∈ m := by
  induction m with
  | nil => simpa [aupsert] using h
  | cons hd tl ih =>
    obtain ⟨k', v'⟩ := hd
    by_cases h1 : k' = k
    · subst h1
      simp [aupsert] at h
      rcases h with h | h
      · exact Or.inl h
      · exact Or.inr (List.mem_cons_of_mem _ h)
    · simp [aupsert, h1] at h
      rcases h with h | h
      · exact Or.inr (by simp [h])
      · rcases ih h with h' | h'
        · exact Or.inl h'
        · exact Or.inr (List.mem_cons_of_mem _ h')

theorem alookup_aerase_self (k : String) (m : List (String × β)) :
    alookup k (aerase k m) = none := by
  induction m with
  | nil => simp [aerase, alookup]
  | cons hd tl ih =>
    obtain ⟨k', v'⟩ := hd
    by_cases h1 : k' = k
    · subst h1
      simpa [aerase, alookup] using ih
    · simpa [aerase, alookup, h1] using ih

theorem insertDesc_perm (x : ℚ × α) (l : List (ℚ × α)) :
    (insertDesc x l).Perm (x :: l) := by
  induction l with
  | nil => simp [insertDesc]
  | cons y ys ih =>
    by_cases h : y.1 < x.1
    · simp [insertDesc, h]
    · simp only [insertDesc, if_neg h]
      exact (ih.cons y).trans (List.Perm.swap x y ys)

theorem sortDescQ_perm_aux (l acc : List (ℚ × α)) :
    (l.foldl (fun a x => insertDesc x a) acc).Perm (acc ++ l) := by
  induction l generalizing acc with
  | nil => simp
  | cons x xs ih =>
    have h1 : (List.foldl (fun a x => insertDesc x a) (insertDesc x acc) xs).Perm
        (insertDesc x acc ++ xs) := ih (insertDesc x acc)
    have h2 : (insertDesc x acc ++ xs).Perm ((acc ++ [x]) ++ xs) :=
      List.Perm.append_right xs
        ((insertDesc_perm x acc).trans (List.perm_append_singleton x acc).symm)
    have h3 : (acc ++ [x]) ++ xs = acc ++ x :: xs := by simp
    exact (h1.trans h2).trans (h3 ▸ List.Perm.refl _)

theorem sortDescQ_perm (l : List (ℚ × α)) : (sortDescQ l).Perm l := by
  simpa [sortDescQ] using sortDescQ_perm_aux l []

theorem sorted_insertDesc {x : ℚ × α} {l : List (ℚ × α)}
    (hl : l.Pairwise (fun a b => b.1 ≤ a.1)) :
    (insertDesc x l).Pairwise (fun a b => b.1 ≤ a.1) := by
  induction l with
  | nil => simp [insertDesc]
  | cons y ys ih =>
    by_cases h : y.1 < x.1
    · simp only [insertDesc, if_pos h]
      refine List.Pairwise.cons ?_ hl
      intro b hb
      rcases List.mem_cons.mp hb with hb | hb
      · exact hb ▸ le_of_lt h
      · exact le_trans (List.rel_of_pairwise_cons hl hb) (le_of_lt h)
    · simp only [insertDesc, if_neg h]
      refine List.Pairwise.cons ?_ (ih hl.of_cons)
      intro b hb
      rcases List.mem_cons.mp ((insertDesc_perm x ys).mem_iff.mp hb) with hb | hb
      · exact hb ▸ le_of_not_lt h
      · exact List.rel_of_pairwise_cons hl hb

theorem sorted_sortDescQ_aux (l acc : List (ℚ × α))
    (hacc : acc.Pairwise (fun a b => b.1 ≤ a.1)) :
    (l.foldl (fun a x => insertDesc x a) acc).Pairwise (fun a b => b.1 ≤ a.1) := by
  induction l generalizing acc with
  | nil => simpa using hacc
  | cons x xs ih => exact ih _ (sorted_insertDesc hacc)

theorem sorted_sortDescQ (l : List (ℚ × α)) :
    (sortDescQ l).Pairwise (fun a b => b.1 ≤ a.1) := by
  simpa [sortDescQ] using sorted_sortDescQ_aux l [] (by simp)

theorem filter_insertDesc (s : ℚ) (x : ℚ × α) (l : List (ℚ × α))
    (hl : l.Pairwise (fun a b => b.1 ≤ a.1)) :
    (insertDesc x l).filter (fun a => decide (a.1 = s)) =
      if x.1 = s then l.filter (fun a => decide (a.1 = s)) ++ [x]
      else l.filter (fun a => decide (a.1 = s)) := by
  induction l with
  | nil =>
    by_cases h : x.1 = s <;> simp [insertDesc, h]
  | cons y ys ih =>
    by_cases h : y.1 < x.1
    · simp only [insertDesc, if_pos h]
      by_cases hx : x.1 = s
      · have hnil : (y :: ys).filter (fun a => decide (a.1 = s)) = [] := by
          refine List.filter_eq_nil_iff.mpr ?_
          intro b hb
          have hble : b.1 ≤ y.1 := by
            rcases List.mem_cons.mp hb with hb | hb
            · exact hb ▸ le_refl _
            · exact List.rel_of_pairwise_cons hl hb
          have hlt : b.1 < s := lt_of_le_of_lt hble (hx ▸ h)
          simp [ne_of_lt hlt]
        rw [List.filter_cons_of_pos (by simp [hx]), hnil, if_pos hx]
        simp [hnil]
      · rw [List.filter_cons_of_neg (by simp [hx]), if_neg hx]
    · simp only [insertDesc, if_neg h]
      by_cases hy : y.1 = s
      · rw [List.filter_cons_of_pos (by simp [hy]), List.filter_cons_of_pos (by simp [hy]),
          ih hl.of_cons]
        by_cases hx : x.1 = s <;> simp [hx]
      · rw [List.filter_cons_of_neg (by simp [hy]), List.filter_cons_of_neg (by simp [hy]),
          ih hl.of_cons]

theorem filter_sortDescQ_aux (s : ℚ) (l acc : List (ℚ × α))
    (hacc : acc.Pairwise (fun a b => b.1 ≤ a.1)) :
    (l.foldl (fun a x => insertDesc x a) acc).filter (fun a => decide (a.1 = s)) =
      acc.filter (fun a => decide (a.1 = s)) ++ l.filter (fun a => decide (a.1 = s)) := by
  induction l generalizing acc with
  | nil => simp
  | cons x xs ih =>
    have h1 := ih (insertDesc x acc) (sorted_insertDesc hacc)
    rw [List.foldl_cons, h1, filter_insertDesc s x acc hacc]
    by_cases hx : x.1 = s
    · rw [if_pos hx, List.filter_cons_of_pos (by simp [hx])]
      simp
    · rw [if_neg hx, List.filter_cons_of_neg (by simp [hx])]

theorem filter_sortDescQ (s : ℚ) (l : List (ℚ × α)) :
    (sortDescQ l).filter (fun a => decide (a.1 = s)) =
      l.filter (fun a => decide (a.1 = s)) := by
  simpa [sortDescQ] using filter_sortDescQ_aux s l [] (by simp)

/-! ### Candidate map lemmas for the hybrid fusion -/

/-- Every entry produced by the dense loop has sparse score 0. -/
theorem densePhase_sparse_zero (qt : List String) (dl : List (Nat × LCDoc))
    (m : CandMap) (hm : ∀ x ∈ m, (x : String × Cand).2.sparse = 0) :
    ∀ x ∈ dl.foldl
      (fun m p => aupsert (denseDocId p.1 p.2)
        ⟨p.2, denseSimilarity p.2, 0, calculateLexicalScore qt p.2.pageContent⟩ m) m,
      x.2.sparse = 0 := by
  induction dl generalizing m with
  | nil => simpa using hm
  | cons p tl ih =>
    refine ih _ ?_
    intro x hx
    rcases mem_aupsert hx with h | h
    · simp [h]
    · exact hm x h

/-- Every key of the map built by the dense loop is a dense-channel id. -/
theorem densePhase_keys (qt : List String) (dl : List (Nat × LCDoc))
    (DK : List String) (m : CandMap)
    (hm : ∀ x ∈ m, (x : String × Cand).1 ∈ DK)
    (hdl : ∀ p ∈ dl, denseDocId (p : Nat × LCDoc).1 p.2 ∈ DK) :
    ∀ x ∈ dl.foldl
      (fun m p => aupsert (denseDocId p.1 p.2)
        ⟨p.2, denseSimilarity p.2, 0, calculateLexicalScore qt p.2.pageContent⟩ m) m,
      x.1 ∈ DK := by
  induction dl generalizing m with
  | nil => simpa using hm
  | cons p tl ih =>
    refine ih _ ?_ (fun q hq => hdl q (List.mem_cons_of_mem _ hq))
    intro x hx
    rcases mem_aupsert hx with h | h
    · rw [h]
      exact hdl p (List.mem_cons_self _ _)
    · exact hm x h

/-- The sparse loop preserves the invariant that an entry has dense score 0
unless its key is a dense id: an update keeps the old dense score and a
fresh entry gets dense score 0. -/
theorem sparseFold_dense (qt : List String) (ms : ℚ) (sl : List (Nat × LCDoc))
    (DK : List String) (m : CandMap)
    (hm : ∀ x ∈ m, (x : String × Cand).2.dense = 0 ∨ x.1 ∈ DK) :
    ∀ x ∈ sl.foldl (sparseStep qt ms) m, x.2.dense = 0 ∨ x.1 ∈ DK := by
  induction sl generalizing m with
  | nil => simpa using hm
  | cons p tl ih =>
    refine ih _ ?_
    intro x hx
    simp only [sparseStep] at hx
    rcases hlook : alookup (sparseDocId p.1 p.2) m with _ | e
    · rw [hlook] at hx
      rcases List.mem_append.mp hx with h | h
      · exact hm x h
      · simp at h
        simp [h]
    · rw [hlook] at hx
      rcases mem_aupsert hx with h | h
      · have he := hm _ (alookup_mem hlook)
        rw [h]
        simpa using he
      · exact hm x h

/-- The sparse loop preserves the invariant that an entry has sparse score
0 unless its key is one of the processed sparse ids. -/
theorem sparseFold_sparse (qt : List String) (ms : ℚ) (sl : List (Nat × LCDoc))
    (SK : List String) (m : CandMap)
    (hm : ∀ x ∈ m, (x : String × Cand).2.sparse = 0 ∨ x.1 ∈ SK)
    (hsl : ∀ p ∈ sl, sparseDocId (p : Nat × LCDoc).1 p.2 ∈ SK) :
    ∀ x ∈ sl.foldl (sparseStep qt ms) m, x.2.sparse = 0 ∨ x.1 ∈ SK := by
  induction sl generalizing m with
  | nil => simpa using hm
  | cons p tl ih =>
    refine ih _ ?_ (fun q hq => hsl q (List.mem_cons_of_mem _ hq))
    intro x hx
    simp only [sparseStep] at hx
    rcases hlook : alookup (sparseDocId p.1 p.2) m with _ | e
    · rw [hlook] at hx
      rcases List.mem_append.mp hx with h | h
      · exact hm x h
      · right
        simp only [List.mem_singleton] at h
        rw [h]
        exact hsl p (List.mem_cons_self _ _)
    · rw [hlook] at hx
      rcases mem_aupsert hx with h | h
      · right
        rw [h]
        exact hsl p (List.mem_cons_self _ _)
      · exact hm x h

/-- Every entry of the candidate map has zero dense contribution when its
id is not a dense id, and zero sparse contribution when its id is not a
sparse id. -/
theorem buildCandidates_channels (query : String) (dense sparse : List LCDoc) :
    ∀ x ∈ buildCandidates query dense sparse,
      ((x : String × Cand).1 ∉ denseIds dense → x.2.dense = 0) ∧
      (x.1 ∉ sparseIds sparse → x.2.sparse = 0) := by
  intro x hx
  have hd : ∀ y ∈ buildCandidates query dense sparse,
      (y : String × Cand).2.dense = 0 ∨ y.1 ∈ denseIds dense := by
    refine sparseFold_dense _ _ _ _ _ ?_
    intro y hy
    right
    refine densePhase_keys _ _ _ _ (by simp) ?_ y hy
    intro p hp
    exact List.mem_map.mpr ⟨p, hp, rfl⟩
  have hs : ∀ y ∈ buildCandidates query dense sparse,
      (y : String × Cand).2.sparse = 0 ∨ y.1 ∈ sparseIds sparse := by
    refine sparseFold_sparse _ _ _ _ _ ?_ ?_
    · intro y hy
      left
      exact densePhase_sparse_zero _ _ _ (by simp) y hy
    · intro p hp
      exact List.mem_map.mpr ⟨p, hp, rfl⟩
  constructor
  · intro hnd
    rcases hd x hx with h | h
    · exact h
    · exact absurd h hnd
  · intro hns
    rcases hs x hx with h | h
    · exact h
    · exact absurd h hns

/-! ### Budget loop lemmas for the context assembler -/

theorem sumLen_append_one (ps : List Text) (t : Text) :
    sumLen (ps ++ [t]) = sumLen ps + t.length := by
  simp [sumLen]

theorem joinNl_length_le (ps : List Text) : (joinNl ps).length ≤ sumLen ps + ps.length := by
  induction ps with
  | nil => simp [joinNl, sumLen]
  | cons p rest ih =>
    cases rest with
    | nil => simp [joinNl, sumLen]
    | cons q rest' =>
      simp only [joinNl, List.length_append, List.length_cons]
      simp [sumLen] at ih ⊢
      omega

theorem ellipsisT_length : ellipsisT.length = 3 := by decide

theorem nl2_length : nl2.length = 2 := by decide

theorem ticketsHeaderLine_length : ticketsHeaderLine.length = 27 := by decide

theorem guidesHeaderLine_length : guidesHeaderLine.length = 23 := by decide

theorem ticketHdr_length_ge (metas : List TicketMeta) (i : Nat) :
    8 ≤ (ticketHdr metas i).length := by
  rw [ticketHdr, ticketHeader]
  simp only [String.data_append, List.length_append, List.length_cons, List.length_nil]
  omega

theorem guideHdr_length_ge (metas : List GuideMeta) (i : Nat) :
    7 ≤ (guideHdr metas i).length := by
  rw [guideHdr, guideHeader]
  simp only [String.data_append, List.length_append, List.length_cons, List.length_nil]
  omega

/-- The loop keeps its character counter below the budget, moves it only
upward, accounts every appended part in the counter, and appends at most
one part per document. -/
theorem budgetLoop_invariant (hdr : Nat → Text) (mi mt : Nat) :
    ∀ (docs : List Text) (i : Nat) (parts : List Text) (total : Nat), total ≤ mt →
      (budgetLoop hdr mi mt i docs (parts, total)).2 ≤ mt ∧
      total ≤ (budgetLoop hdr mi mt i docs (parts, total)).2 ∧
      sumLen (budgetLoop hdr mi mt i docs (parts, total)).1 + total =
        sumLen parts + (budgetLoop hdr mi mt i docs (parts, total)).2 ∧
      (budgetLoop hdr mi mt i docs (parts, total)).1.length ≤ parts.length + docs.length := by
  intro docs
  induction docs with
  | nil =>
    intro i parts total htot
    simp [budgetLoop, htot]
  | cons doc rest ih =>
    intro i parts total htot
    simp only [budgetLoop]
    by_cases hb : mt ≤ total
    · rw [if_pos hb]
      simp [htot]
    · rw [if_neg hb]
      by_cases hover : mt < total + (hdr i ++ pyTrunc mi doc ++ nl2).length
      · rw [if_pos hover]
        by_cases hrem : (100 : ℤ) < (mt : ℤ) - (total : ℤ) - ((hdr i).length : ℤ) - 10
        · rw [if_pos hrem]
          have hlen : (hdr i ++ doc.take ((mt : ℤ) - (total : ℤ) - ((hdr i).length : ℤ) - 10).toNat
              ++ ellipsisT ++ nl2).length + total ≤ mt := by
            simp only [List.length_append, List.length_take, ellipsisT_length, nl2_length]
            omega
          have htot' : total + (hdr i ++ doc.take ((mt : ℤ) - (total : ℤ) - ((hdr i).length : ℤ) - 10).toNat
              ++ ellipsisT ++ nl2).length ≤ mt := by omega
          obtain ⟨a1, a2, a3, a4⟩ := ih (i + 1)
            (parts ++ [hdr i ++ doc.take ((mt : ℤ) - (total : ℤ) - ((hdr i).length : ℤ) - 10).toNat
              ++ ellipsisT ++ nl2]) _ htot'
          have hsl := sumLen_append_one parts
            (hdr i ++ doc.take ((mt : ℤ) - (total : ℤ) - ((hdr i).length : ℤ) - 10).toNat
              ++ ellipsisT ++ nl2)
          have hlc : (parts ++ [hdr i ++ doc.take ((mt : ℤ) - (total : ℤ) - ((hdr i).length : ℤ) - 10).toNat
              ++ ellipsisT ++ nl2]).length = parts.length + 1 := by simp
          rw [hsl] at a3
          rw [hlc] at a4
          refine ⟨a1, by omega, by omega, ?_⟩
          simp only [List.length_cons]
          omega
        · rw [if_neg hrem]
          simp [htot]
      · rw [if_neg hover]
        have htot' : total + (hdr i ++ pyTrunc mi doc ++ nl2).length ≤ mt := by omega
        obtain ⟨a1, a2, a3, a4⟩ := ih (i + 1) (parts ++ [hdr i ++ pyTrunc mi doc ++ nl2]) _ htot'
        have hsl := sumLen_append_one parts (hdr i ++ pyTrunc mi doc ++ nl2)
        have hlc : (parts ++ [hdr i ++ pyTrunc mi doc ++ nl2]).length = parts.length + 1 := by simp
        rw [hsl] at a3
        rw [hlc] at a4
        refine ⟨a1, by omega, by omega, ?_⟩
        simp only [List.length_cons]
        omega

/-- Once at most 5 characters of budget remain, a loop whose headers have
at least 4 characters accepts no further item. -/
theorem budgetLoop_halt (hdr : Nat → Text) (mi mt i : Nat) (docs : List Text)
    (parts : List Text) (total : Nat) (hh : ∀ j, 4 ≤ (hdr j).length)
    (ht : mt ≤ total + 5) :
    budgetLoop hdr mi mt i docs (parts, total) = (parts, total) := by
  cases docs with
  | nil => simp [budgetLoop]
  | cons doc rest =>
    simp only [budgetLoop]
    by_cases hb : mt ≤ total
    · rw [if_pos hb]
    · rw [if_neg hb]
      have hover : mt < total + (hdr i ++ pyTrunc mi doc ++ nl2).length := by
        have := hh i
        simp only [List.length_append, nl2_length]
        omega
      rw [if_pos hover]
      have hrem : ¬ ((100 : ℤ) < (mt : ℤ) - (total : ℤ) - ((hdr i).length : ℤ) - 10) := by
        have := hh i
        omega
      rw [if_neg hrem]

/-- The parts a section loop appends are, in order, items derived from the
consecutive documents at the head of its input: no item is dropped from
the middle and none are reordered. -/
theorem budgetLoop_items (hdr : Nat → Text) (mi mt : Nat) :
    ∀ (docs : List Text) (i : Nat) (parts : List Text) (total : Nat),
      ∃ ps, (budgetLoop hdr mi mt i docs (parts, total)).1 = parts ++ ps ∧
        ps.length ≤ docs.length ∧
        ∀ n, n < ps.length → itemFromDoc hdr (i + n) (docs.getD n []) (ps.getD n []) := by
  intro docs
  induction docs with
  | nil =>
    intro i parts total
    exact ⟨[], by simp [budgetLoop], by simp, by simp⟩
  | cons doc rest ih =>
    intro i parts total
    simp only [budgetLoop]
    by_cases hb : mt ≤ total
    · rw [if_pos hb]
      exact ⟨[], by simp, by simp, by simp⟩
    · rw [if_neg hb]
      by_cases hover : mt < total + (hdr i ++ pyTrunc mi doc ++ nl2).length
      · rw [if_pos hover]
        by_cases hrem : (100 : ℤ) < (mt : ℤ) - (total : ℤ) - ((hdr i).length : ℤ) - 10
        · rw [if_pos hrem]
          obtain ⟨ps', hp1, hp2, hp3⟩ := ih (i + 1)
            (parts ++ [hdr i ++ doc.take ((mt : ℤ) - (total : ℤ) - ((hdr i).length : ℤ) - 10).toNat
              ++ ellipsisT ++ nl2]) _
          refine ⟨(hdr i ++ doc.take ((mt : ℤ) - (total : ℤ) - ((hdr i).length : ℤ) - 10).toNat
              ++ ellipsisT ++ nl2) :: ps', by simpa using hp1, by simpa using hp2, ?_⟩
          intro n hn
          cases n with
          | zero =>
            refine ⟨doc.take ((mt : ℤ) - (total : ℤ) - ((hdr i).length : ℤ) - 10).toNat,
              List.take_prefix _ _, Or.inr ?_⟩
            simp
          | succ n' =>
            simp only [List.getD_cons_succ]
            have := hp3 n' (by simpa using hn)
            have harith : i + 1 + n' = i + (n' + 1) := by omega
            rwa [harith] at this
        · rw [if_neg hrem]
          exact ⟨[], by simp, by simp, by simp⟩
      · rw [if_neg hover]
        obtain ⟨ps', hp1, hp2, hp3⟩ := ih (i + 1) (parts ++ [hdr i ++ pyTrunc mi doc ++ nl2]) _
        refine ⟨(hdr i ++ pyTrunc mi doc ++ nl2) :: ps', by simpa using hp1,
          by simpa using hp2, ?_⟩
        intro n hn
        cases n with
        | zero =>
          rw [pyTrunc]
          by_cases hl : mi < doc.length
          · rw [if_pos hl]
            refine ⟨doc.take mi, List.take_prefix _ _, Or.inr ?_⟩
            simp [pyTrunc, hl]
          · rw [if_neg hl]
            refine ⟨doc, List.prefix_refl _, Or.inl ?_⟩
            simp [pyTrunc, hl]
        | succ n' =>
          simp only [List.getD_cons_succ]
          have := hp3 n' (by simpa using hn)
          have harith : i + 1 + n' = i + (n' + 1) := by omega
          rwa [harith] at this

theorem seqStarts_append (p rest : List Char) : seqStarts p (p ++ rest) = true := by
  induction p with
  | nil => simp [seqStarts]
  | cons c cs ih => simp [seqStarts, ih]

/-! ### Claim theorems -/

/-- Claim C1 (confirmed): every candidate in the fused output of
`_hybrid_retrieve` carries the hybrid score
`dense_weight * dense_score + sparse_weight * sparse_score +
lexical_weight * lexical_score`, where the lexical weight is `0.2` and the
configured defaults are dense `0.65` and sparse `0.35`; a candidate that
appears in only one channel still receives a score, the missing channel
contributing exactly `0` (the score fields are total rationals, never
null): its dense component is `0` whenever its id is not among the dense
ids, and its sparse component is `0` whenever its id is not among the
sparse ids. -/
theorem c1_hybrid_score_formula (dw sw : ℚ) (query : String)
    (dense sparse : List LCDoc) (topK : Nat) (p : ℚ × LCDoc)
    (hp : p ∈ hybridRetrieve dw sw query dense sparse topK) :
    (∃ did e, (did, e) ∈ buildCandidates query dense sparse ∧
      p = (dw * e.dense + sw * e.sparse + lexicalWeight * e.lex, e.doc) ∧
      (did ∉ denseIds dense → e.dense = 0) ∧
      (did ∉ sparseIds sparse → e.sparse = 0)) ∧
    HYBRID_DENSE_WEIGHT = 13/20 ∧ HYBRID_SPARSE_WEIGHT = 7/20 ∧ lexicalWeight = 1/5 := by
  refine ⟨?_, by norm_num [HYBRID_DENSE_WEIGHT], by norm_num [HYBRID_SPARSE_WEIGHT],
    by norm_num [lexicalWeight]⟩
  have h1 : p ∈ sortDescQ (scoredDocs dw sw (buildCandidates query dense sparse)) :=
    List.mem_of_mem_take hp
  have h2 : p ∈ scoredDocs dw sw (buildCandidates query dense sparse) :=
    (sortDescQ_perm _).mem_iff.mp h1
  obtain ⟨pe, hpe, hfp⟩ := List.mem_map.mp h2
  obtain ⟨hch1, hch2⟩ := buildCandidates_channels query dense sparse pe hpe
  exact ⟨pe.1, pe.2, hpe, hfp ▸ rfl, hch1, hch2⟩

/-- Witness for C1 at a concrete input: one dense-only candidate with
distance `0.5` and no lexical overlap; its fused score is
`0.65 * 0.5 = 13/40`, with the sparse channel contributing exactly `0`. -/
theorem c1_hybrid_score_formula_witness :
    ((13/40 : ℚ), (⟨"x", some "b", none, none, some 0.5, none, 0⟩ : LCDoc)) ∈
      hybridRetrieve HYBRID_DENSE_WEIGHT HYBRID_SPARSE_WEIGHT "zz"
        [⟨"x", some "b", none, none, some 0.5, none, 0⟩] [] 10 ∧
    (∃ did e, (did, e) ∈ buildCandidates "zz"
        [(⟨"x", some "b", none, none, some 0.5, none, 0⟩ : LCDoc)] [] ∧
      ((13/40 : ℚ), (⟨"x", some "b", none, none, some 0.5, none, 0⟩ : LCDoc)) =
        (HYBRID_DENSE_WEIGHT * e.dense + HYBRID_SPARSE_WEIGHT * e.sparse +
          lexicalWeight * e.lex, e.doc) ∧
      (did ∉ denseIds [(⟨"x", some "b", none, none, some 0.5, none, 0⟩ : LCDoc)] →
        e.dense = 0) ∧
      (did ∉ sparseIds [] → e.sparse = 0)) ∧
    HYBRID_DENSE_WEIGHT = 13/20 ∧ HYBRID_SPARSE_WEIGHT = 7/20 ∧ lexicalWeight = 1/5 := by
  have hq : expandQueryTerms "zz" = ["zz"] := by decide
  have hl1 : calculateLexicalScore ["zz"] "x" = 0 := by
    unfold calculateLexicalScore
    have m1 : ¬ ("zz" ∈ pyWords (pyLower "x")) := by decide
    norm_num [minQ, m1]
  have sne1 : ("b" : String) ≠ "" := by decide
  have hout : hybridRetrieve HYBRID_DENSE_WEIGHT HYBRID_SPARSE_WEIGHT "zz"
      [⟨"x", some "b", none, none, some 0.5, none, 0⟩] [] 10
      = [((13/40 : ℚ), ⟨"x", some "b", none, none, some 0.5, none, 0⟩)] := by
    unfold hybridRetrieve buildCandidates densePhase
    norm_num [hq, hl1, List.enum, List.enumFrom, aupsert, denseDocId, strOrD,
      denseSimilarity, sne1, scoredDocs, sortDescQ, insertDesc, hybridScore,
      HYBRID_DENSE_WEIGHT, HYBRID_SPARSE_WEIGHT, lexicalWeight]
  have hmem : ((13/40 : ℚ), (⟨"x", some "b", none, none, some 0.5, none, 0⟩ : LCDoc)) ∈
      hybridRetrieve HYBRID_DENSE_WEIGHT HYBRID_SPARSE_WEIGHT "zz"
        [⟨"x", some "b", none, none, some 0.5, none, 0⟩] [] 10 := by
    rw [hout]
    exact List.mem_singleton.mpr rfl
  exact ⟨hmem, (c1_hybrid_score_formula _ _ _ _ _ _ _ hmem).1,
    (c1_hybrid_score_formula _ _ _ _ _ _ _ hmem).2⟩

/-- Counterexample to C2 as stated: two dense candidates with identical
scores, the one with document id `"b"` listed before the one with id
`"a"`.  The fused output keeps that insertion order, so equal-score
candidates are not ordered by document id ascending. -/
theorem c2_id_tie_break_counterexample :
    ¬ specTieOrder (hybridRetrieve HYBRID_DENSE_WEIGHT HYBRID_SPARSE_WEIGHT "zz"
      [⟨"x", some "b", none, none, some 0.5, none, 0⟩,
       ⟨"y", some "a", none, none, some 0.5, none, 0⟩] [] 10) := by
  have hq : expandQueryTerms "zz" = ["zz"] := by decide
  have hl1 : calculateLexicalScore ["zz"] "x" = 0 := by
    unfold calculateLexicalScore
    have m1 : ¬ ("zz" ∈ pyWords (pyLower "x")) := by decide
    norm_num [minQ, m1]
  have hl2 : calculateLexicalScore ["zz"] "y" = 0 := by
    unfold calculateLexicalScore
    have m1 : ¬ ("zz" ∈ pyWords (pyLower "y")) := by decide
    norm_num [minQ, m1]
  have sne1 : ("b" : String) ≠ "" := by decide
  have sne2 : ("a" : String) ≠ "" := by decide
  have sne3 : ¬ (("b" : String) = "a") := by decide
  have hbc : buildCandidates "zz"
      [⟨"x", some "b", none, none, some 0.5, none, 0⟩,
       ⟨"y", some "a", none, none, some 0.5, none, 0⟩] []
      = [("b", ⟨⟨"x", some "b", none, none, some 0.5, none, 0⟩, 1 - 0.5, 0, 0⟩),
         ("a", ⟨⟨"y", some "a", none, none, some 0.5, none, 0⟩, 1 - 0.5, 0, 0⟩)] := by
    unfold buildCandidates densePhase
    norm_num [hq, hl1, hl2, List.enum, List.enumFrom, aupsert, denseDocId, strOrD,
      denseSimilarity, sne1, sne2, sne3]
  rw [specTieOrder, hybridRetrieve, hbc]
  norm_num [scoredDocs, sortDescQ, insertDesc, hybridScore, List.pairwise_cons,
    docIdOf, strOrD, lexLeChar, sne1, sne2, sne3]
  decide

/-- Claim C2 (corrected): the fused candidate list is sorted in descending
order of hybrid score and the pipeline is a pure function of its inputs
(hence byte-identical across runs), but ties are broken by candidate-map
insertion order (dense candidates in input order, then sparse-only
candidates), not by document id ascending: the sort is a permutation of
the scored candidates that preserves the relative order of equal-score
entries (the sublist at any fixed score is unchanged). -/
theorem c2_sorted_desc_ties_by_insertion (dw sw : ℚ) (query : String)
    (dense sparse : List LCDoc) (topK : Nat) :
    (hybridRetrieve dw sw query dense sparse topK).Pairwise (fun a b => b.1 ≤ a.1) ∧
    (sortDescQ (scoredDocs dw sw (buildCandidates query dense sparse))).Perm
      (scoredDocs dw sw (buildCandidates query dense sparse)) ∧
    (∀ s : ℚ,
      (sortDescQ (scoredDocs dw sw (buildCandidates query dense sparse))).filter
          (fun a => decide (a.1 = s)) =
        (scoredDocs dw sw (buildCandidates query dense sparse)).filter
          (fun a => decide (a.1 = s))) := by
  refine ⟨?_, sortDescQ_perm _, fun s => filter_sortDescQ s _⟩
  exact (sorted_sortDescQ _).sublist (List.take_sublist _ _)

set_option maxRecDepth 10000 in
/-- Counterexample to C3 as stated: with a configured global budget of 40
characters (per-item limits at their defaults), one 100-character ticket
and one 10-character guide produce a context string of 75 characters: the
two section header lines and the join separators are appended without
being counted against `total_chars`. -/
theorem c3_budget_exceeded_counterexample :
    40 < (buildContext (some ([List.replicate 100 'a'], [emptyTicketMeta]))
      (some ([List.replicate 10 'b'], [emptyGuideMeta])) 1500 1500 5 3 40).length := by
  decide

/-- Claim C3 (corrected): the character counter of `build_context` never
exceeds the configured global budget, but the returned string may exceed
that budget, because the two fixed section header lines (27 and 23
characters) and the newline separators of the final join are not counted:
the returned length is bounded by
`max_total_chars + 52 + max_tickets + max_guides`. -/
theorem c3_budget_bound_with_headers (ticketsData : Option (List Text × List TicketMeta))
    (guidesData : Option (List Text × List GuideMeta))
    (mic mgc mts mgs mt : Nat) :
    (buildContextState ticketsData guidesData mic mgc mts mgs mt).2 ≤ mt ∧
    (buildContext ticketsData guidesData mic mgc mts mgs mt).length ≤ mt + 52 + mts + mgs := by
  rcases ticketsData with _ | td <;> rcases guidesData with _ | gd
  · simp [buildContext, buildContextState, joinNl]
  · simp only [buildContext, buildContextState]
    by_cases hmt : (0 : Nat) < mt
    · rw [if_pos hmt]
      simp only [List.nil_append]
      obtain ⟨a1, _, a3, a4⟩ := budgetLoop_invariant (guideHdr gd.2) mgc mt
        (gd.1.take mgs) 0 [guidesHeaderLine] 0 (by omega)
      have hs : sumLen [guidesHeaderLine] = 23 := by simp [sumLen, guidesHeaderLine_length]
      have hj := joinNl_length_le
        (budgetLoop (guideHdr gd.2) mgc mt 0 (gd.1.take mgs) ([guidesHeaderLine], 0)).1
      have hc : (gd.1.take mgs).length ≤ mgs := List.length_take_le _ _
      simp only [List.length_singleton] at a4
      exact ⟨a1, by omega⟩
    · rw [if_neg hmt]
      simp [joinNl]
  · simp only [buildContext, buildContextState]
    obtain ⟨a1, _, a3, a4⟩ := budgetLoop_invariant (ticketHdr td.2) mic mt
      (td.1.take mts) 0 [ticketsHeaderLine] 0 (by omega)
    have hs : sumLen [ticketsHeaderLine] = 27 := by simp [sumLen, ticketsHeaderLine_length]
    have hj := joinNl_length_le
      (budgetLoop (ticketHdr td.2) mic mt 0 (td.1.take mts) ([ticketsHeaderLine], 0)).1
    have hc : (td.1.take mts).length ≤ mts := List.length_take_le _ _
    simp only [List.length_singleton] at a4
    exact ⟨a1, by omega⟩
  · simp only [buildContext, buildContextState]
    obtain ⟨a1, _, a3, a4⟩ := budgetLoop_invariant (ticketHdr td.2) mic mt
      (td.1.take mts) 0 [ticketsHeaderLine] 0 (by omega)
    have hs : sumLen [ticketsHeaderLine] = 27 := by simp [sumLen, ticketsHeaderLine_length]
    have hc : (td.1.take mts).length ≤ mts := List.length_take_le _ _
    simp only [List.length_singleton] at a4
    by_cases hlt : (budgetLoop (ticketHdr td.2) mic mt 0 (td.1.take mts)
        ([ticketsHeaderLine], 0)).2 < mt
    · rw [if_pos hlt]
      obtain ⟨b1, b2, b3, b4⟩ := budgetLoop_invariant (guideHdr gd.2) mgc mt
        (gd.1.take mgs) 0
        ((budgetLoop (ticketHdr td.2) mic mt 0 (td.1.take mts) ([ticketsHeaderLine], 0)).1
          ++ [guidesHeaderLine])
        (budgetLoop (ticketHdr td.2) mic mt 0 (td.1.take mts) ([ticketsHeaderLine], 0)).2
        (by omega)
      have hsg := sumLen_append_one
        (budgetLoop (ticketHdr td.2) mic mt 0 (td.1.take mts) ([ticketsHeaderLine], 0)).1
        guidesHeaderLine
      rw [hsg, guidesHeaderLine_length] at b3
      have hj := joinNl_length_le
        (budgetLoop (guideHdr gd.2) mgc mt 0 (gd.1.take mgs)
          ((budgetLoop (ticketHdr td.2) mic mt 0 (td.1.take mts) ([ticketsHeaderLine], 0)).1
            ++ [guidesHeaderLine],
           (budgetLoop (ticketHdr td.2) mic mt 0 (td.1.take mts) ([ticketsHeaderLine], 0)).2)).1
      have hcg : (gd.1.take mgs).length ≤ mgs := List.length_take_le _ _
      have hlap : ((budgetLoop (ticketHdr td.2) mic mt 0 (td.1.take mts)
          ([ticketsHeaderLine], 0)).1 ++ [guidesHeaderLine]).length =
          (budgetLoop (ticketHdr td.2) mic mt 0 (td.1.take mts)
            ([ticketsHeaderLine], 0)).1.length + 1 := by simp
      rw [hlap] at b4
      exact ⟨b1, by omega⟩
    · rw [if_neg hlt]
      have hj := joinNl_length_le
        (budgetLoop (ticketHdr td.2) mic mt 0 (td.1.take mts) ([ticketsHeaderLine], 0)).1
      exact ⟨a1, by omega⟩

/-- Claim C4 (confirmed): in `build_context`, when adding the item at the
head of the remaining documents would exceed the global budget and more
than the minimum useful length of 100 characters remains after the header
(the code condition is `remaining > 100`), that single item is truncated
to fit the remaining budget (ending exactly 5 characters short of the
budget, so its length is at most the budget remainder); after the
truncation no further item is accepted, neither from the rest of the
ticket section nor by any subsequent guide-section loop; and in every run
the appended parts are in-order renderings of the consecutive documents
at the head of the input (nothing is dropped from the middle or
reordered). -/
theorem c4_truncate_fit_then_stop (tmetas : List TicketMeta) (mi mt i : Nat) (doc : Text)
    (rest parts : List Text) (total : Nat)
    (h0 : total < mt)
    (h1 : mt < total + (ticketHdr tmetas i ++ pyTrunc mi doc ++ nl2).length)
    (h2 : (100 : ℤ) < (mt : ℤ) - (total : ℤ) - ((ticketHdr tmetas i).length : ℤ) - 10) :
    budgetLoop (ticketHdr tmetas) mi mt i (doc :: rest) (parts, total) =
      (parts ++ [ticketHdr tmetas i ++
        doc.take ((mt : ℤ) - (total : ℤ) - ((ticketHdr tmetas i).length : ℤ) - 10).toNat ++
        ellipsisT ++ nl2], mt - 5) ∧
    (ticketHdr tmetas i ++
        doc.take ((mt : ℤ) - (total : ℤ) - ((ticketHdr tmetas i).length : ℤ) - 10).toNat ++
        ellipsisT ++ nl2).length ≤ mt - total ∧
    (∀ (gmetas : List GuideMeta) (mi2 i2 : Nat) (docs2 parts2 : List Text),
      budgetLoop (guideHdr gmetas) mi2 mt i2 docs2 (parts2, mt - 5) = (parts2, mt - 5)) ∧
    (∀ (docs : List Text) (j : Nat) (ps : List Text) (tot : Nat),
      ∃ newParts, (budgetLoop (ticketHdr tmetas) mi mt j docs (ps, tot)).1 = ps ++ newParts ∧
        newParts.length ≤ docs.length ∧
        ∀ n, n < newParts.length →
          itemFromDoc (ticketHdr tmetas) (j + n) (docs.getD n []) (newParts.getD n [])) := by
  have htake : ((mt : ℤ) - (total : ℤ) - ((ticketHdr tmetas i).length : ℤ) - 10).toNat
      ≤ doc.length := by
    rw [pyTrunc] at h1
    by_cases hl : mi < doc.length
    · rw [if_pos hl] at h1
      simp only [List.length_append, List.length_take, ellipsisT_length, nl2_length] at h1
      omega
    · rw [if_neg hl] at h1
      simp only [List.length_append, nl2_length] at h1
      omega
  have hlen2 : (ticketHdr tmetas i ++
      doc.take ((mt : ℤ) - (total : ℤ) - ((ticketHdr tmetas i).length : ℤ) - 10).toNat ++
      ellipsisT ++ nl2).length
      = (ticketHdr tmetas i).length +
        ((mt : ℤ) - (total : ℤ) - ((ticketHdr tmetas i).length : ℤ) - 10).toNat + 5 := by
    simp only [List.length_append, List.length_take, ellipsisT_length, nl2_length]
    omega
  have htotal' : total + (ticketHdr tmetas i ++
      doc.take ((mt : ℤ) - (total : ℤ) - ((ticketHdr tmetas i).length : ℤ) - 10).toNat ++
      ellipsisT ++ nl2).length = mt - 5 := by
    rw [hlen2]
    omega
  refine ⟨?_, by omega, ?_, budgetLoop_items _ _ _⟩
  · simp only [budgetLoop]
    rw [if_neg (by omega : ¬ mt ≤ total), if_pos h1, if_pos h2]
    rw [htotal']
    exact budgetLoop_halt _ _ _ _ _ _ _
      (fun j => by have := ticketHdr_length_ge tmetas j; omega) (by omega)
  · intro gmetas mi2 i2 docs2 parts2
    exact budgetLoop_halt _ _ _ _ _ _ _
      (fun j => by have := guideHdr_length_ge gmetas j; omega) (by omega)

set_option maxRecDepth 10000 in
/-- Witness for C4 at a concrete input: budget 200, a single 300-character
document with empty metadata (header 19 characters), so the item would
take 321 characters; the remaining budget is 171 > 100 and the item is
truncated to fit, ending at counter 195 = 200 - 5. -/
theorem c4_truncate_fit_then_stop_witness :
    (0 < 200 ∧
      200 < 0 + (ticketHdr [] 0 ++ pyTrunc 1500 (List.replicate 300 'a') ++ nl2).length ∧
      (100 : ℤ) < (200 : ℤ) - (0 : ℤ) - ((ticketHdr [] 0).length : ℤ) - 10) ∧
    budgetLoop (ticketHdr []) 1500 200 0 (List.replicate 300 'a' :: []) ([], 0) =
      ([] ++ [ticketHdr [] 0 ++
        (List.replicate 300 'a').take
          ((200 : ℤ) - (0 : ℤ) - ((ticketHdr [] 0).length : ℤ) - 10).toNat ++
        ellipsisT ++ nl2], 200 - 5) := by
  refine ⟨⟨by decide, by decide, by decide⟩, ?_⟩
  exact (c4_truncate_fit_then_stop [] 1500 200 0 (List.replicate 300 'a') [] [] 0
    (by decide) (by decide) (by decide)).1

/-- Claim C5 (confirmed): for every key and value, a put followed by a get
with the same key before the TTL (24 hours) has elapsed returns the cached
value; a get once the age exceeds the TTL returns a miss and evicts the
entry, so the key is absent from the resulting cache and every subsequent
lookup for that key misses as well (lazy eviction, no background sweep). -/
theorem c5_cache_ttl_expiry (cache : RCache) (k : String) (v : QueryResult)
    (tPut now1 now2 : Int)
    (h1 : now1 - tPut < cacheTTL) (h2 : cacheTTL < now2 - tPut) :
    (getCachedResponse now1 (cacheResponse k v tPut cache) k).1 = some v ∧
    (getCachedResponse now2 (cacheResponse k v tPut cache) k).1 = none ∧
    alookup k (getCachedResponse now2 (cacheResponse k v tPut cache) k).2 = none ∧
    (∀ t : Int,
      (getCachedResponse t
        (getCachedResponse now2 (cacheResponse k v tPut cache) k).2 k).1 = none) := by
  have hk : alookup k (cacheResponse k v tPut cache) = some ⟨v, tPut⟩ := by
    rw [cacheResponse, alookup_aupsert]
    simp
  refine ⟨?_, ?_, ?_, ?_⟩
  · rw [getCachedResponse, hk]
    simp [h1]
  · rw [getCachedResponse, hk]
    simp only []
    rw [if_neg (by omega)]
  · rw [getCachedResponse, hk]
    simp only []
    rw [if_neg (by omega)]
    exact alookup_aerase_self k _
  · intro t
    have hE : alookup k (getCachedResponse now2 (cacheResponse k v tPut cache) k).2 = none := by
      rw [getCachedResponse, hk]
      simp only []
      rw [if_neg (by omega)]
      exact alookup_aerase_self k _
    rw [getCachedResponse, hE]

/-- Witness for C5 at a concrete input: put at time 0, hit at time 1,
expired miss at time 100000 (TTL is 86400 seconds). -/
theorem c5_cache_ttl_expiry_witness :
    ((1 : ℤ) - 0 < cacheTTL ∧ cacheTTL < (100000 : ℤ) - 0) ∧
    (getCachedResponse 1 (cacheResponse "k" ⟨"q", "r", [], 1⟩ 0 []) "k").1
      = some ⟨"q", "r", [], 1⟩ ∧
    (getCachedResponse 100000 (cacheResponse "k" ⟨"q", "r", [], 1⟩ 0 []) "k").1 = none := by
  have h := c5_cache_ttl_expiry [] "k" ⟨"q", "r", [], 1⟩ 0 1 100000 (by decide) (by decide)
  exact ⟨⟨by decide, by decide⟩, h.1, h.2.1⟩

/-- Counterexample to C6 as stated: a non-streaming call with
`num_drafts = 2` is not bypassed: with a valid cached entry for its key
the call returns the cached single-draft result instead of generating, so
its outcome depends on the cache contents. -/
theorem c6_multi_draft_reads_cache_counterexample :
    (queryFn (fun _ => Except.ok "fresh")
        [(cacheKeyOf ⟨"q", 3, 3, false, true, 2, "italian"⟩, ⟨⟨"q", "stale", [], 1⟩, 0⟩)] 1
        ⟨"q", 3, 3, false, true, 2, "italian"⟩).1
      ≠ (queryFn (fun _ => Except.ok "fresh") [] 1 ⟨"q", 3, 3, false, true, 2, "italian"⟩).1 := by
  decide

/-- Claim C6 (corrected): streaming requests bypass the cache entirely
(no read, no write: the cache is returned unchanged and the result is
freshly generated); but a non-streaming multi-draft request only skips the
write: its cache read still happens, so a cached entry for the key is
returned as the answer, and the resulting cache equals the post-read cache
(no entry is written). -/
theorem c6_cache_read_write_policy (gen : ℚ → Except String String) (cache : RCache)
    (now : Int) (a : QueryArgs) :
    (a.stream = true → queryFn gen cache now a = (mkResult gen a, cache)) ∧
    (a.useCache = true → a.stream = false → 2 ≤ a.numDrafts →
      (queryFn gen cache now a).2 = (getCachedResponse now cache (cacheKeyOf a)).2 ∧
      (∀ r, (getCachedResponse now cache (cacheKeyOf a)).1 = some r →
        (queryFn gen cache now a).1 = r)) := by
  constructor
  · intro hs
    simp [queryFn, hs]
  · intro hu hs hn
    rcases hr : (getCachedResponse now cache (cacheKeyOf a)).1 with _ | r
    · have hnd : ¬ a.numDrafts = 1 := by omega
      constructor
      · simp [queryFn, hu, hs, hr, hnd]
      · intro r hr'
        exact absurd hr' (by simp)
    · constructor
      · simp [queryFn, hu, hs, hr]
      · intro r' hr'
        injection hr' with h
        subst h
        simp [queryFn, hu, hs, hr]

/-- Witness for C6 at concrete inputs: a streaming call leaves the cache
untouched and generates; a non-streaming two-draft call ends with the
post-read cache (no write). -/
theorem c6_cache_read_write_policy_witness :
    queryFn (fun _ => Except.ok "fresh") [] 0 ⟨"q", 3, 3, true, true, 1, "italian"⟩
      = (mkResult (fun _ => Except.ok "fresh") ⟨"q", 3, 3, true, true, 1, "italian"⟩, []) ∧
    (queryFn (fun _ => Except.ok "fresh") [] 0 ⟨"q", 3, 3, false, true, 2, "italian"⟩).2
      = (getCachedResponse 0 [] (cacheKeyOf ⟨"q", 3, 3, false, true, 2, "italian"⟩)).2 := by
  exact ⟨(c6_cache_read_write_policy (fun _ => Except.ok "fresh") [] 0
      ⟨"q", 3, 3, true, true, 1, "italian"⟩).1 rfl,
    ((c6_cache_read_write_policy (fun _ => Except.ok "fresh") [] 0
      ⟨"q", 3, 3, false, true, 2, "italian"⟩).2 rfl rfl (by decide)).1⟩

/-- Claim C7 (confirmed): when the native type filter of the store is
unavailable (the filtered query raises), `search_tickets` falls back to an
unfiltered batch of twice the candidate count and filters client-side, and
every metadata record in the returned result has type `ticket`; likewise
`_filter_by_type` returns only documents of the requested type, so no
`guide_chunk` document leaks into a ticket retrieval. -/
theorem c7_type_filter_fallback_no_leak (store : TicketStore) (k : Nat)
    (hfail : store.queryFiltered = none) :
    (∀ m ∈ (semanticTicketResults store k).metadatas, alookup "type" m = some "ticket") ∧
    (∀ docType : String, ∀ docs : List LCDoc, ∀ d ∈ filterByType docs docType,
      d.metaType = some docType) := by
  constructor
  · intro m hm
    rw [semanticTicketResults, hfail] at hm
    simp only [List.mem_filterMap] at hm
    obtain ⟨i, hi, hget⟩ := hm
    have hi' := List.mem_of_mem_take hi
    obtain ⟨q, hq, hqi⟩ := List.mem_map.mp hi'
    have hqf := List.mem_filter.mp hq
    have hml : ((store.queryUnfiltered (candidateK k * 2)).metadatas.get? q.1) = some q.2 :=
      List.mk_mem_enum_iff_get?.mp hqf.1
    rw [hqi] at hml
    rw [hml] at hget
    have : m = q.2 := by injection hget with h; exact h.symm
    subst this
    have := hqf.2
    simp at this
    exact this.2
  · intro docType docs d hd
    have := List.mem_filter.mp hd
    simpa using this.2

/-- Witness for C7 at a concrete input: a store whose filter raises and
whose unfiltered batch mixes one guide chunk and one ticket; the fallback
result contains only ticket metadata. -/
theorem c7_type_filter_fallback_no_leak_witness :
    (TicketStore.queryFiltered ⟨none, fun _ =>
      ⟨["g1", "t1"], ["gdoc", "tdoc"],
        [[("type", "guide_chunk")], [("type", "ticket")]], [0, 0]⟩⟩ = none) ∧
    (∀ m ∈ (semanticTicketResults ⟨none, fun _ =>
        ⟨["g1", "t1"], ["gdoc", "tdoc"],
          [[("type", "guide_chunk")], [("type", "ticket")]], [0, 0]⟩⟩ 5).metadatas,
      alookup "type" m = some "ticket") := by
  exact ⟨rfl, (c7_type_filter_fallback_no_leak _ 5 rfl).1⟩

/-- Counterexample to C8 as stated: with `k = 1` and four scored
documents, the spec formula `min(k * 3, 500)` keeps 3 documents, but the
code keeps `min(candidate_k * 3, 500)` with
`candidate_k = max(k * 10, 200)`, that is all four. -/
theorem c8_cut_size_counterexample :
    bm25TopIndices 1 [1, 2, 3, 4] ≠ specBm25TopIndices 1 [1, 2, 3, 4] := by
  decide

/-- Claim C8 (corrected): the BM25 channel keeps the top
`min(candidate_k * 3, 500)` scoring documents where
`candidate_k = max(k * 10, 200)` — which is always 500, not
`min(k * 3, 500)` — and only afterwards restricts to the requested doc
type by the id prefix `ticket_`: every id the cut returns for the ticket
channel starts with `ticket_`. -/
theorem c8_bm25_top_cut (k : Nat) (scores : List ℚ) (ids : List String) :
    bm25TopIndices k scores = (sortIndicesDesc scores).take 500 ∧
    (bm25TicketIds k scores ids).all (fun s => strStarts "ticket_" s) = true := by
  constructor
  · rw [bm25TopIndices]
    have : min (candidateK k * 3) 500 = 500 := by
      rw [candidateK]
      omega
    rw [this]
  · rw [List.all_eq_true]
    intro s hs
    rw [bm25TicketIds] at hs
    simp only [List.mem_filterMap] at hs
    obtain ⟨i, _, hget⟩ := hs
    rcases hids : ids.get? i with _ | did
    · rw [hids] at hget
      simp at hget
    · rw [hids] at hget
      have hget' : (if strStarts "ticket_" did = true then some did else none) = some s := hget
      by_cases hst : strStarts "ticket_" did = true
      · rw [if_pos hst] at hget'
        injection hget' with h
        exact h ▸ hst
      · rw [if_neg hst] at hget'
        simp at hget'

/-- Counterexample to C9 as stated: with a provider that raises, the
single-draft non-streaming query still writes a cache entry for its key,
holding the error string produced by `generate_response`. -/
theorem c9_cached_error_counterexample :
    alookup (cacheKeyOf ⟨"q", 3, 3, false, true, 1, "italian"⟩)
      (queryFn (fun _ => Except.error "boom") [] 0 ⟨"q", 3, 3, false, true, 1, "italian"⟩).2
      = some ⟨⟨"q", "Error: Unable to generate response. boom", [], 1⟩, 0⟩ := by
  decide

/-- Claim C9 (corrected): a cache entry is created only on a cache miss,
but not only after a successful answer: every single-draft, non-streaming,
cache-enabled query that misses the cache writes its result back
unconditionally, and when the generation step fails that result is the
string `Error: Unable to generate response.` followed by the provider
error, cached like any answer. -/
theorem c9_failed_generation_cached (gen : ℚ → Except String String) (cache : RCache)
    (now : Int) (a : QueryArgs) (hu : a.useCache = true) (hs : a.stream = false)
    (hn : a.numDrafts = 1)
    (hmiss : (getCachedResponse now cache (cacheKeyOf a)).1 = none) :
    (queryFn gen cache now a).2 =
      cacheResponse (cacheKeyOf a) (mkResult gen a) now
        (getCachedResponse now cache (cacheKeyOf a)).2 ∧
    (queryFn gen cache now a).1 = mkResult gen a ∧
    (∀ e, gen 0.7 = Except.error e →
      (mkResult gen a).response = "Error: Unable to generate response. " ++ e) := by
  refine ⟨?_, ?_, ?_⟩
  · simp [queryFn, hu, hs, hn, hmiss]
  · simp [queryFn, hu, hs, hn, hmiss]
  · intro e he
    simp [mkResult, hn, he, generateResponse]

/-- Witness for C9 at a concrete input: an empty cache, a failing
provider, and default single-draft arguments; the write happens. -/
theorem c9_failed_generation_cached_witness :
    ((getCachedResponse 0 [] (cacheKeyOf ⟨"q", 3, 3, false, true, 1, "italian"⟩)).1 = none) ∧
    (queryFn (fun _ => Except.error "boom") [] 0 ⟨"q", 3, 3, false, true, 1, "italian"⟩).2
      = cacheResponse (cacheKeyOf ⟨"q", 3, 3, false, true, 1, "italian"⟩)
          (mkResult (fun _ => Except.error "boom") ⟨"q", 3, 3, false, true, 1, "italian"⟩) 0
          (getCachedResponse 0 [] (cacheKeyOf ⟨"q", 3, 3, false, true, 1, "italian"⟩)).2 := by
  refine ⟨by decide, ?_⟩
  exact (c9_failed_generation_cached (fun _ => Except.error "boom") [] 0
    ⟨"q", 3, 3, false, true, 1, "italian"⟩ rfl rfl rfl (by decide)).1

/-- Claim C10 (confirmed): `generate_response` never propagates a provider
exception: a failing provider call yields a string beginning with
`Error: Unable to generate response.`, a successful call is passed through
unchanged, the query result is always the built result (the function is
total, so the per-draft exception handler in `query` cannot be reached via
a provider failure), and each draft text is exactly `generate_response` of
the provider outcome at its scheduled temperature. -/
theorem c10_generate_response_never_raises :
    (∀ e, strStarts "Error: Unable to generate response."
      (generateResponse (Except.error e)) = true) ∧
    (∀ s, generateResponse (Except.ok s) = s) ∧
    (∀ gen cache now a, a.useCache = false →
      (queryFn gen cache now a).1 = mkResult gen a) ∧
    (∀ gen n, (mkDrafts gen n).map (fun d => d.text) =
      (List.range n).map
        (fun i => generateResponse
          (gen (tempSchedule.getD (min i (tempSchedule.length - 1)) 0)))) := by
  refine ⟨?_, fun s => rfl, ?_, ?_⟩
  · intro e
    rw [generateResponse, strStarts, String.data_append]
    have hd : ("Error: Unable to generate response. ").data
        = ("Error: Unable to generate response.").data ++ [' '] := by decide
    rw [hd, List.append_assoc]
    exact seqStarts_append _ _
  · intro gen cache now a hu
    simp [queryFn, hu]
  · intro gen n
    simp [mkDrafts]

/-- Witness for C10 at concrete inputs: a failing provider produces the
error-marker string, a successful provider is passed through, and a
cache-disabled query returns the built result. -/
theorem c10_generate_response_never_raises_witness :
    strStarts "Error: Unable to generate response."
      (generateResponse (Except.error "boom")) = true ∧
    generateResponse (Except.ok "ok") = "ok" ∧
    (queryFn (fun _ => Except.ok "t") [] 0 ⟨"q", 3, 3, false, false, 1, "italian"⟩).1
      = mkResult (fun _ => Except.ok "t") ⟨"q", 3, 3, false, false, 1, "italian"⟩ := by
  exact ⟨c10_generate_response_never_raises.1 "boom",
    c10_generate_response_never_raises.2.1 "ok",
    c10_generate_response_never_raises.2.2.1 (fun _ => Except.ok "t") [] 0
      ⟨"q", 3, 3, false, false, 1, "italian"⟩ rfl⟩

end CarBot
